import Mathlib

/-!
Verification of the netlink-rs protocol codec and socket engine.

Buffers are modelled as `List Nat` of byte values; multi-byte integers are
read and written little-endian (the native order of the platforms the crate
targets).  Fallible Rust functions returning `Result` become `Except`;
a Rust panic (out-of-range slice index, arithmetic underflow) is modelled
by the distinguished error value `NlError.Panic`, which no `match` on a
`Result` in the source can catch.
-/

namespace Netlink

/-- Write a value as `s` little-endian bytes (`byteorder::NativeEndian` write). -/
def natToBytes : Nat → Nat → List Nat
  | 0, _ => []
  | s + 1, v => v % 256 :: natToBytes s (v / 256)

/-- Read `s` little-endian bytes as a value (`byteorder::NativeEndian` read).
Callers in the source only invoke the read after checking that `s` bytes are
available; absent bytes read as 0 here. -/
def bytesToNat : Nat → List Nat → Nat
  | 0, _ => 0
  | s + 1, b => b.headD 0 + 256 * bytesToNat s b.tail

theorem natToBytes_length (s v : Nat) : (natToBytes s v).length = s := by
  induction s generalizing v with
  | zero => rfl
  | succ s ih => simp [natToBytes, ih]

theorem bytesToNat_append (s v : Nat) (r : List Nat) :
    bytesToNat s (natToBytes s v ++ r) = v % 256 ^ s := by
  induction s generalizing v with
  | zero => simp [bytesToNat, natToBytes, Nat.mod_one]
  | succ s ih =>
      simp only [natToBytes, bytesToNat, List.cons_append, List.headD_cons,
        List.tail_cons, ih]
      have h4 : 256 ^ (s + 1) = 256 * 256 ^ s := by ring
      rw [h4]
      have ha := Nat.mod_mul_right_div_self v 256 (256 ^ s)
      have hb := Nat.mod_mod_of_dvd v (dvd_mul_right 256 (256 ^ s))
      have hc := Nat.div_add_mod (v % (256 * 256 ^ s)) 256
      omega

theorem natToBytes_lt (s v : Nat) : ∀ x ∈ natToBytes s v, x < 256 := by
  induction s generalizing v with
  | zero => simp [natToBytes]
  | succ s ih =>
      intro x hx
      simp only [natToBytes, List.mem_cons] at hx
      rcases hx with h | h
      · omega
      · exact ih _ _ h

/-- `align_to(len, 4)` from `core/message.rs`: the source computes
`(len + 3) & !3`, which clears the two low bits of `len + 3`, i.e. rounds
`len + 3` down to the nearest multiple of 4. -/
def netlinkAlign (len : Nat) : Nat :=
  len + 3 - (len + 3) % 4

/-- `netlink_padding(len) = netlink_align(len) - len` from `core/message.rs`. -/
def netlinkPadding (len : Nat) : Nat :=
  netlinkAlign len - len

theorem netlinkAlign_le (len : Nat) : len ≤ netlinkAlign len := by
  have := Nat.mod_lt (len + 3) (show 0 < 4 by decide)
  unfold netlinkAlign; omega

theorem netlinkAlign_lt (len : Nat) : netlinkAlign len < len + 4 := by
  unfold netlinkAlign; omega

theorem netlinkPadding_add (len : Nat) : len + netlinkPadding len = netlinkAlign len := by
  have := netlinkAlign_le len
  unfold netlinkPadding; omega

theorem netlinkAlign_of_mod (len : Nat) (h : len % 4 = 0) : netlinkAlign len = len := by
  unfold netlinkAlign; omega

deriving instance DecidableEq for Except

/-- Error outcomes of the embedded functions.  The first four constructors are
the `NetlinkErrorKind` variants from `errors.rs`; the `Io*` constructors stand
for the `std::io::Error` values the source constructs with the corresponding
`ErrorKind`; `OsError` is `io::Error::from_raw_os_error`; the `Utf8`
constructors are the two UTF-8 conversion failures; `Panic` marks a Rust
panic (reversed slice index or arithmetic underflow), which is not a `Result`
and cannot be caught by a `match` in the source. -/
inductive NlError where
  | NotEnoughData
  | NotFound
  | InvalidValue
  | InvalidLength
  | IoUnexpectedEof
  | IoInvalidData
  | IoNotFound
  | OsError (code : Int)
  | Utf8Error
  | FromUtf8Error
  | Panic
deriving DecidableEq, Repr

/-- Netlink attribute (`core/attribute.rs`): identifier plus payload bytes. -/
structure Attribute where
  identifier : Nat
  data : List Nat
deriving DecidableEq, Repr

/-- `Attribute::unpack_with_size` (`core/attribute.rs` lines 188-203).
Reads the declared u16 `length` and u16 `identifier`, computes the padding
from the declared length, checks `buffer.len() < length + padding`, and copies
`buffer[4..length]` as the payload.  When the declared length is below 4 the
slice `&buffer[4..length]` has its start after its end and the source
panics; that case is `NlError.Panic` here. -/
def attrUnpackWithSize (buffer : List Nat) : Except NlError (Nat × Attribute) :=
  if buffer.length < 4 then .error .NotEnoughData
  else
    let length := bytesToNat 2 buffer
    let padding := netlinkPadding length
    if buffer.length < length + padding then .error .NotEnoughData
    else if length < 4 then .error .Panic
    else .ok (length + padding,
      ⟨bytesToNat 2 (buffer.drop 2), (buffer.drop 4).take (length - 4)⟩)

theorem attrUnpackWithSize_ok_bounds {b : List Nat} {n : Nat} {a : Attribute}
    (h : attrUnpackWithSize b = .ok (n, a)) : 4 ≤ n ∧ n ≤ b.length := by
  simp only [attrUnpackWithSize] at h
  split at h
  · exact absurd h (by simp)
  · split at h
    · exact absurd h (by simp)
    · split at h
      · exact absurd h (by simp)
      · simp only [Except.ok.injEq, Prod.mk.injEq] at h
        have hp := netlinkPadding_add (bytesToNat 2 b)
        omega

/-- `Attribute::unpack_all` (`core/attribute.rs` lines 64-74): repeatedly
parse at the running position, pushing each parsed attribute and advancing by
the consumed size, stopping at the first `Err`.  A panic inside
`unpack_with_size` is not an `Err` and propagates. -/
def unpackAllFrom (data : List Nat) (pos : Nat) (acc : List Attribute) :
    Except NlError (Nat × List Attribute) :=
  match h : attrUnpackWithSize (data.drop pos) with
  | .ok r => unpackAllFrom data (pos + r.1) (acc ++ [r.2])
  | .error .Panic => .error .Panic
  | .error _ => .ok (pos, acc)
termination_by data.length - pos
decreasing_by
  have := attrUnpackWithSize_ok_bounds h
  have hl : (data.drop pos).length = data.length - pos := by simp
  omega

/-- `Attribute::unpack_all` entry point: start at position 0 with no
attributes collected. -/
def unpackAll (data : List Nat) : Except NlError (Nat × List Attribute) :=
  unpackAllFrom data 0 []

/-- `<Attribute as NativePack>::pack` (`core/attribute.rs` lines 170-178):
writes the u16 total length (`data.len() + 4`, truncated to u16), the u16
identifier and the payload in order, each step failing with `NotEnoughData`
when the remaining slice is too small, then skips the alignment padding
without writing it (`&mut slice[padding..]` panics when fewer than `padding`
bytes remain).  The result is the rewritten buffer together with the number
of bytes consumed (written plus skipped padding). -/
def attrPack (a : Attribute) (buffer : List Nat) :
    Except NlError (List Nat × Nat) :=
  if buffer.length < 2 then .error .NotEnoughData
  else if buffer.length - 2 < 2 then .error .NotEnoughData
  else if buffer.length - 4 < a.data.length then .error .NotEnoughData
  else if buffer.length - 4 - a.data.length < netlinkPadding a.data.length then
    .error .Panic
  else
    .ok (natToBytes 2 ((a.data.length + 4) % 65536) ++ natToBytes 2 a.identifier
          ++ a.data ++ buffer.drop (4 + a.data.length),
        4 + a.data.length + netlinkPadding a.data.length)

/-- Wire encoding of an attribute: declared u16 length (header plus payload),
u16 identifier, payload bytes, then whatever bytes follow (alignment padding
and any further records; their values are arbitrary since `pack` skips the
padding without writing it). -/
def encodeAttr (a : Attribute) (tail : List Nat) : List Nat :=
  natToBytes 2 (a.data.length + 4) ++ natToBytes 2 a.identifier ++ a.data ++ tail

theorem encodeAttr_length (a : Attribute) (tail : List Nat) :
    (encodeAttr a tail).length = 4 + a.data.length + tail.length := by
  simp [encodeAttr, natToBytes_length]; omega

theorem netlinkPadding_add4 (len : Nat) :
    netlinkPadding (len + 4) = netlinkPadding len := by
  unfold netlinkPadding netlinkAlign; omega

theorem attrUnpack_encodeAttr (a : Attribute) (tail : List Nat)
    (hid : a.identifier < 65536) (hlen : a.data.length + 4 ≤ 65535)
    (htail : netlinkPadding (a.data.length + 4) ≤ tail.length) :
    attrUnpackWithSize (encodeAttr a tail) =
      .ok (netlinkAlign (a.data.length + 4), a) := by
  have hassoc : encodeAttr a tail =
      natToBytes 2 (a.data.length + 4) ++
        (natToBytes 2 a.identifier ++ (a.data ++ tail)) := by
    simp [encodeAttr]
  have hL : bytesToNat 2 (encodeAttr a tail) = a.data.length + 4 := by
    rw [hassoc, bytesToNat_append, Nat.mod_eq_of_lt (by norm_num; omega)]
  have hdrop2 : (encodeAttr a tail).drop 2 =
      natToBytes 2 a.identifier ++ (a.data ++ tail) := by
    rw [hassoc, List.drop_left' (natToBytes_length 2 _)]
  have hI : bytesToNat 2 ((encodeAttr a tail).drop 2) = a.identifier := by
    rw [hdrop2, bytesToNat_append, Nat.mod_eq_of_lt (by norm_num; omega)]
  have hdrop4 : (encodeAttr a tail).drop 4 = a.data ++ tail := by
    have : (encodeAttr a tail).drop 4 = ((encodeAttr a tail).drop 2).drop 2 := by
      rw [List.drop_drop]
    rw [this, hdrop2, List.drop_left' (natToBytes_length 2 _)]
  have hLen := encodeAttr_length a tail
  have hpad := netlinkPadding_add (a.data.length + 4)
  have hpad4 := netlinkPadding_add4 a.data.length
  unfold attrUnpackWithSize
  rw [if_neg (by omega)]
  simp only [hL, hI, hdrop4]
  rw [if_neg (by omega), if_neg (by omega)]
  have htake : (a.data ++ tail).take (a.data.length + 4 - 4) = a.data := by
    rw [List.take_left' (by omega)]
  rw [htake]
  have htotal : a.data.length + 4 + netlinkPadding (a.data.length + 4) =
      netlinkAlign (a.data.length + 4) := hpad
  rw [htotal]

/-- Advancing step of `unpack_all`: a successful parse at the current position
pushes the attribute and moves the cursor by the consumed size. -/
theorem unpackAllFrom_step {data : List Nat} {pos n : Nat} {a : Attribute}
    (acc : List Attribute)
    (h : attrUnpackWithSize (data.drop pos) = .ok (n, a)) :
    unpackAllFrom data pos acc = unpackAllFrom data (pos + n) (acc ++ [a]) := by
  rw [unpackAllFrom]
  split
  · next r heq =>
      rw [h] at heq
      cases heq
      rfl
  · next heq => rw [h] at heq; exact Except.noConfusion heq
  · next e hne heq => rw [h] at heq; exact Except.noConfusion heq

/-- Stopping step of `unpack_all`: a failed parse (any `Err`, which excludes
a panic) ends the loop, returning the position and attributes so far. -/
theorem unpackAllFrom_stop {data : List Nat} {pos : Nat} {e : NlError}
    (acc : List Attribute)
    (h : attrUnpackWithSize (data.drop pos) = .error e) (hne : e ≠ .Panic) :
    unpackAllFrom data pos acc = .ok (pos, acc) := by
  rw [unpackAllFrom]
  split
  · next r heq => rw [h] at heq; exact Except.noConfusion heq
  · next heq => rw [h] at heq; cases heq; exact absurd rfl hne
  · next e2 hne2 heq => rfl

/-- C1 (amended): `Attribute::unpack_with_size` fails with `NotEnoughData`
exactly when the buffer holds fewer than 4 bytes or when the declared length
plus its alignment padding (computed from the declared length) exceeds the
buffer length.  When both checks pass it succeeds as the claim states —
consuming `length + padding` bytes, with identifier read from bytes 2..4 and
payload bytes 4..length — provided the declared length is at least 4; when
the declared length is below 4 the source panics on the reversed slice
`&buffer[4..length]` instead of succeeding. -/
theorem attrUnpackWithSize_characterization (buffer : List Nat) :
    (attrUnpackWithSize buffer = .error .NotEnoughData ↔
      (buffer.length < 4 ∨
        buffer.length < bytesToNat 2 buffer +
          netlinkPadding (bytesToNat 2 buffer))) ∧
    (4 ≤ buffer.length →
      bytesToNat 2 buffer + netlinkPadding (bytesToNat 2 buffer) ≤
        buffer.length →
      4 ≤ bytesToNat 2 buffer →
      attrUnpackWithSize buffer =
        .ok (bytesToNat 2 buffer + netlinkPadding (bytesToNat 2 buffer),
          ⟨bytesToNat 2 (buffer.drop 2),
            (buffer.drop 4).take (bytesToNat 2 buffer - 4)⟩)) ∧
    (4 ≤ buffer.length →
      bytesToNat 2 buffer + netlinkPadding (bytesToNat 2 buffer) ≤
        buffer.length →
      bytesToNat 2 buffer < 4 →
      attrUnpackWithSize buffer = .error .Panic) := by
  by_cases h1 : buffer.length < 4
  · simp only [attrUnpackWithSize, if_pos h1]
    refine ⟨by simp [h1], ?_, ?_⟩ <;> intro h <;> omega
  · by_cases h2 : buffer.length <
        bytesToNat 2 buffer + netlinkPadding (bytesToNat 2 buffer)
    · simp only [attrUnpackWithSize, if_neg h1, if_pos h2]
      refine ⟨by simp [h1, h2], ?_, ?_⟩ <;> intro h h2a <;> omega
    · by_cases h3 : bytesToNat 2 buffer < 4
      · simp only [attrUnpackWithSize, if_neg h1, if_neg h2, if_pos h3]
        refine ⟨by simp [h1, h2], ?_, fun _ _ _ => by trivial⟩
        intro _ _ h4; omega
      · simp only [attrUnpackWithSize, if_neg h1, if_neg h2, if_neg h3]
        exact ⟨by simp [h1, h2], fun _ _ _ => by trivial, fun _ _ h4 => absurd h4 h3⟩

/-- C1 counterexample: the buffer `[0,0,0,0]` has 4 bytes, its declared
length 0 plus padding 0 does not exceed the buffer length, yet the parse does
not succeed: the source panics on `&buffer[4..0]`. -/
theorem attrUnpackWithSize_len0_panic :
    ¬ (([0, 0, 0, 0] : List Nat).length < 4) ∧
    bytesToNat 2 [0, 0, 0, 0] + netlinkPadding (bytesToNat 2 [0, 0, 0, 0]) ≤
      ([0, 0, 0, 0] : List Nat).length ∧
    attrUnpackWithSize [0, 0, 0, 0] = .error .Panic := by decide

/-- Witness for the amended C1 at the concrete buffer used by the source's
own `unpack_attribute` test. -/
theorem attrUnpackWithSize_characterization_witness :
    attrUnpackWithSize [7, 0, 0, 16, 17, 170, 85, 238] =
      .ok (8, ⟨4096, [17, 170, 85]⟩) :=
  (attrUnpackWithSize_characterization [7, 0, 0, 16, 17, 170, 85, 238]).2.1
    (by decide) (by decide) (by decide)

/-- C2: packing an attribute and parsing the written bytes returns the
attribute unchanged, consuming `align4(4 + payload length)` bytes, for every
identifier below 2^16 and every payload of length at most 65531. -/
theorem attr_pack_unpack_roundtrip (id : Nat) (payload buffer : List Nat)
    (hid : id < 65536) (hlen : payload.length ≤ 65531)
    (hbuf : 4 + payload.length + netlinkPadding payload.length ≤
      buffer.length) :
    attrPack ⟨id, payload⟩ buffer =
      .ok (encodeAttr ⟨id, payload⟩ (buffer.drop (4 + payload.length)),
        netlinkAlign (payload.length + 4)) ∧
    attrUnpackWithSize
        (encodeAttr ⟨id, payload⟩ (buffer.drop (4 + payload.length))) =
      .ok (netlinkAlign (payload.length + 4), ⟨id, payload⟩) := by
  have hpadeq := netlinkPadding_add4 payload.length
  have hpad := netlinkPadding_add (payload.length + 4)
  constructor
  · unfold attrPack
    dsimp only
    rw [if_neg (by omega), if_neg (by omega), if_neg (by omega),
      if_neg (by omega)]
    rw [Nat.mod_eq_of_lt (show payload.length + 4 < 65536 by omega)]
    have hcons : 4 + payload.length + netlinkPadding payload.length =
        netlinkAlign (payload.length + 4) := by omega
    rw [hcons]
    rfl
  · apply attrUnpack_encodeAttr ⟨id, payload⟩ _ hid (by dsimp only; omega)
    dsimp only
    simp only [List.length_drop]
    omega

/-- Witness for C2 at the concrete attribute of the source's
`pack_attribute` test, packed into a fresh 12-byte buffer. -/
theorem attr_pack_unpack_roundtrip_witness :
    attrPack ⟨33109, [17, 170, 85]⟩ (List.replicate 12 0) =
      .ok ([7, 0, 85, 129, 17, 170, 85, 0, 0, 0, 0, 0], 8) ∧
    attrUnpackWithSize [7, 0, 85, 129, 17, 170, 85, 0, 0, 0, 0, 0] =
      .ok (8, ⟨33109, [17, 170, 85]⟩) :=
  attr_pack_unpack_roundtrip 33109 [17, 170, 85] (List.replicate 12 0)
    (by decide) (by decide) (by decide)

/-- Panic propagation through `unpack_all`: a panic inside a parse unwinds. -/
theorem unpackAllFrom_panic {data : List Nat} {pos : Nat}
    (acc : List Attribute)
    (h : attrUnpackWithSize (data.drop pos) = .error .Panic) :
    unpackAllFrom data pos acc = .error .Panic := by
  rw [unpackAllFrom]
  split
  · next r heq => rw [h] at heq; exact Except.noConfusion heq
  · next heq => rfl
  · next e2 hne2 heq =>
      rw [h] at heq
      cases heq
      exact absurd rfl hne2

theorem bytesToNat_append_of_le (s : Nat) (t r : List Nat)
    (hs : s ≤ t.length) : bytesToNat s (t ++ r) = bytesToNat s t := by
  induction s generalizing t with
  | zero => rfl
  | succ s ih =>
      cases t with
      | nil => simp at hs
      | cons a t2 =>
          simp only [List.cons_append, bytesToNat, List.headD_cons,
            List.tail_cons]
          rw [ih t2 (by simpa using hs)]

theorem attrUnpackWithSize_nil :
    attrUnpackWithSize [] = .error .NotEnoughData := by decide

/-- Any failing run of `unpack_all` is a panic: every `Err` from
`unpack_with_size` is caught by the loop and merely stops it, so the only
propagating failure is the Rust panic inside the parse. -/
theorem unpackAllFrom_error_panic (data : List Nat) :
    ∀ pos acc e, unpackAllFrom data pos acc = .error e → e = .Panic := by
  suffices H : ∀ k pos acc e, data.length - pos ≤ k →
      unpackAllFrom data pos acc = .error e → e = .Panic by
    exact fun pos acc e h => H (data.length - pos) pos acc e le_rfl h
  intro k
  induction k with
  | zero =>
      intro pos acc e hk h
      have hdrop : (data.drop pos).length = data.length - pos := by simp
      have hfail : attrUnpackWithSize (data.drop pos) =
          .error .NotEnoughData := by
        unfold attrUnpackWithSize
        rw [if_pos (by omega)]
      rw [unpackAllFrom_stop acc hfail (by decide)] at h
      exact Except.noConfusion h
  | succ k ih =>
      intro pos acc e hk h
      cases hres : attrUnpackWithSize (data.drop pos) with
      | ok r =>
          obtain ⟨n, a⟩ := r
          have hb := attrUnpackWithSize_ok_bounds hres
          have hdrop : (data.drop pos).length = data.length - pos := by simp
          rw [unpackAllFrom_step acc hres] at h
          exact ih (pos + n) (acc ++ [a]) e (by omega) h
      | error e2 =>
          by_cases hp : e2 = NlError.Panic
          · subst hp
            rw [unpackAllFrom_panic acc hres] at h
            cases h
            rfl
          · rw [unpackAllFrom_stop acc hres hp] at h
            exact Except.noConfusion h

theorem encodeAttr_append (a : Attribute) (p rest : List Nat) :
    encodeAttr a p ++ rest = encodeAttr a (p ++ rest) := by
  simp [encodeAttr]

/-- Parsing a strictly truncated attribute encoding fails with
`NotEnoughData`: either fewer than 4 header bytes remain, or the declared
length plus padding (the full encoded size) exceeds what is left. -/
theorem attrUnpack_truncated (a : Attribute) (p t : List Nat)
    (hlen : a.data.length + 4 ≤ 65535)
    (hp : p.length = netlinkPadding (a.data.length + 4))
    (hpre : t <+: encodeAttr a p)
    (hlt : t.length < (encodeAttr a p).length) :
    attrUnpackWithSize t = .error .NotEnoughData := by
  by_cases h4 : t.length < 4
  · unfold attrUnpackWithSize
    rw [if_pos h4]
  · obtain ⟨r, hr⟩ := hpre
    have hL : bytesToNat 2 t = a.data.length + 4 := by
      have h1 : bytesToNat 2 (t ++ r) = bytesToNat 2 t :=
        bytesToNat_append_of_le 2 t r (by omega)
      have h2 : bytesToNat 2 (encodeAttr a p) = a.data.length + 4 := by
        have : encodeAttr a p = natToBytes 2 (a.data.length + 4) ++
            (natToBytes 2 a.identifier ++ (a.data ++ p)) := by
          simp [encodeAttr]
        rw [this, bytesToNat_append, Nat.mod_eq_of_lt (by norm_num; omega)]
      rw [hr] at h1
      omega
    have hsz := encodeAttr_length a p
    have hpad := netlinkPadding_add (a.data.length + 4)
    unfold attrUnpackWithSize
    rw [if_neg (by omega)]
    simp only [hL]
    rw [if_pos (by omega)]

/-- C3: `Attribute::unpack_all` never propagates a hard error — the only
failure it can surface is a Rust panic, every `Err` merely stops the loop.
On a buffer holding exactly two well-formed attributes it returns both with
total consumed bytes the sum of the two padded lengths; when the second
attribute is truncated it returns only the first, consuming only the first. -/
theorem unpackAll_lenient (a1 a2 : Attribute) (p1 p2 t : List Nat)
    (hid1 : a1.identifier < 65536) (hlen1 : a1.data.length + 4 ≤ 65535)
    (hid2 : a2.identifier < 65536) (hlen2 : a2.data.length + 4 ≤ 65535)
    (hp1 : p1.length = netlinkPadding (a1.data.length + 4))
    (hp2 : p2.length = netlinkPadding (a2.data.length + 4))
    (hpre : t <+: encodeAttr a2 p2)
    (hlt : t.length < (encodeAttr a2 p2).length) :
    (∀ data e, unpackAll data = .error e → e = .Panic) ∧
    unpackAll (encodeAttr a1 p1 ++ encodeAttr a2 p2) =
      .ok (netlinkAlign (a1.data.length + 4) + netlinkAlign (a2.data.length + 4),
        [a1, a2]) ∧
    unpackAll (encodeAttr a1 p1 ++ t) =
      .ok (netlinkAlign (a1.data.length + 4), [a1]) := by
  have hsz1 : (encodeAttr a1 p1).length = netlinkAlign (a1.data.length + 4) := by
    have := encodeAttr_length a1 p1
    have := netlinkPadding_add (a1.data.length + 4)
    omega
  have hsz2 : (encodeAttr a2 p2).length = netlinkAlign (a2.data.length + 4) := by
    have := encodeAttr_length a2 p2
    have := netlinkPadding_add (a2.data.length + 4)
    omega
  refine ⟨fun data e h => unpackAllFrom_error_panic data 0 [] e h, ?_, ?_⟩
  · set data := encodeAttr a1 p1 ++ encodeAttr a2 p2 with hdata
    have hstep1 : attrUnpackWithSize (data.drop 0) =
        .ok (netlinkAlign (a1.data.length + 4), a1) := by
      rw [List.drop_zero, hdata, encodeAttr_append]
      exact attrUnpack_encodeAttr a1 _ hid1 hlen1
        (by simp only [List.length_append]; omega)
    have hstep2 : attrUnpackWithSize
        (data.drop (0 + netlinkAlign (a1.data.length + 4))) =
        .ok (netlinkAlign (a2.data.length + 4), a2) := by
      rw [Nat.zero_add, hdata, List.drop_left' hsz1]
      exact attrUnpack_encodeAttr a2 _ hid2 hlen2 (by omega)
    have hstop : attrUnpackWithSize
        (data.drop (0 + netlinkAlign (a1.data.length + 4) +
          netlinkAlign (a2.data.length + 4))) = .error .NotEnoughData := by
      have hlen : data.length = netlinkAlign (a1.data.length + 4) +
          netlinkAlign (a2.data.length + 4) := by
        rw [hdata]; simp only [List.length_append]; omega
      have : data.drop (0 + netlinkAlign (a1.data.length + 4) +
          netlinkAlign (a2.data.length + 4)) = [] := by
        apply List.drop_eq_nil_of_le
        omega
      rw [this, attrUnpackWithSize_nil]
    unfold unpackAll
    rw [unpackAllFrom_step [] hstep1, unpackAllFrom_step _ hstep2,
      unpackAllFrom_stop _ hstop (by decide)]
    norm_num
  · set data := encodeAttr a1 p1 ++ t with hdata
    have hstep1 : attrUnpackWithSize (data.drop 0) =
        .ok (netlinkAlign (a1.data.length + 4), a1) := by
      rw [List.drop_zero, hdata, encodeAttr_append]
      exact attrUnpack_encodeAttr a1 _ hid1 hlen1
        (by simp only [List.length_append]; omega)
    have hstop : attrUnpackWithSize
        (data.drop (0 + netlinkAlign (a1.data.length + 4))) =
        .error .NotEnoughData := by
      rw [Nat.zero_add, hdata, List.drop_left' hsz1]
      exact attrUnpack_truncated a2 p2 t hlen2 hp2 hpre hlt
    unfold unpackAll
    rw [unpackAllFrom_step [] hstep1, unpackAllFrom_stop _ hstop (by decide)]
    norm_num

/-- Witness for C3 at the concrete buffers of the source's
`unpack_attributes` test: two attributes, then the same first attribute
followed by a 4-byte truncation of the second. -/
theorem unpackAll_lenient_witness :
    unpackAll [7, 0, 0, 16, 17, 170, 85, 238, 8, 0, 0, 16, 17, 170, 85, 238] =
      .ok (16, [⟨4096, [17, 170, 85]⟩, ⟨4096, [17, 170, 85, 238]⟩]) ∧
    unpackAll [7, 0, 0, 16, 17, 170, 85, 238, 8, 0, 0, 16] =
      .ok (8, [⟨4096, [17, 170, 85]⟩]) := by
  have h := unpackAll_lenient ⟨4096, [17, 170, 85]⟩ ⟨4096, [17, 170, 85, 238]⟩
    [238] [] [8, 0, 0, 16] (by decide) (by decide) (by decide) (by decide)
    (by decide) (by decide) ⟨[17, 170, 85, 238], by decide⟩ (by decide)
  exact ⟨h.2.1, h.2.2⟩

/-- Loop of `nested_attribute_array` (`core/attribute.rs` lines 21-40).
While strictly more than 4 bytes remain, read the u16 `size` (the u16 `index`
is also read but unused); if strictly more bytes remain than `size`, decode
`d[4..size]` as a flat attribute list and push it (`&d[4..size]` panics when
`size < 4`), then advance by `size` bytes; otherwise break. -/
def nestedLoop (d : List Nat) (acc : List (List Attribute)) :
    Except NlError (List (List Attribute)) :=
  if h1 : 4 < d.length then
    if h2 : bytesToNat 2 d < d.length then
      if h3 : bytesToNat 2 d < 4 then .error .Panic
      else
        match unpackAll ((d.drop 4).take (bytesToNat 2 d - 4)) with
        | .error e => .error e
        | .ok r => nestedLoop (d.drop (bytesToNat 2 d)) (acc ++ [r.2])
    else .ok acc
  else .ok acc
termination_by d.length
decreasing_by simp only [List.length_drop]; omega

/-- `nested_attribute_array` entry point. -/
def nestedAttributeArray (data : List Nat) :
    Except NlError (List (List Attribute)) :=
  nestedLoop data []

theorem nestedLoop_stop_small {d : List Nat} (acc : List (List Attribute))
    (h1 : ¬ 4 < d.length) : nestedLoop d acc = .ok acc := by
  rw [nestedLoop, dif_neg h1]

theorem nestedLoop_stop_fit {d : List Nat} (acc : List (List Attribute))
    (h1 : 4 < d.length) (h2 : ¬ bytesToNat 2 d < d.length) :
    nestedLoop d acc = .ok acc := by
  rw [nestedLoop, dif_pos h1, dif_neg h2]

theorem nestedLoop_step {d : List Nat} (acc : List (List Attribute))
    (h1 : 4 < d.length) (h2 : bytesToNat 2 d < d.length)
    (h3 : ¬ bytesToNat 2 d < 4) {r : Nat × List Attribute}
    (hok : unpackAll ((d.drop 4).take (bytesToNat 2 d - 4)) = .ok r) :
    nestedLoop d acc = nestedLoop (d.drop (bytesToNat 2 d)) (acc ++ [r.2]) := by
  rw [nestedLoop, dif_pos h1, dif_pos h2, dif_neg h3, hok]

/-- Wire encoding of one nested-array frame `{size, index, payload}` with
`size = payload length + 4`. -/
def encodeFrame (f : Nat × List Nat) : List Nat :=
  natToBytes 2 (f.2.length + 4) ++ natToBytes 2 f.1 ++ f.2

/-- Concatenation of encoded frames. -/
def encodeFrames : List (Nat × List Nat) → List Nat
  | [] => []
  | f :: rest => encodeFrame f ++ encodeFrames rest

/-- Attribute list a frame payload decodes to (empty on a panic, which the
theorems exclude). -/
def attrListOf (b : List Nat) : List Attribute :=
  match unpackAll b with
  | .ok r => r.2
  | .error _ => []

theorem encodeFrame_length (f : Nat × List Nat) :
    (encodeFrame f).length = f.2.length + 4 := by
  simp [encodeFrame, natToBytes_length]; omega

theorem encodeFrames_cons_length (f : Nat × List Nat)
    (rest : List (Nat × List Nat)) :
    4 ≤ (encodeFrames (f :: rest)).length := by
  have := encodeFrame_length f
  simp only [encodeFrames, List.length_append]
  omega

/-- C4 counterexample: an 8-byte buffer holding exactly one frame of declared
size 8.  Eight bytes remain and the size does not exceed them, so the claim
requires the frame to be accepted and contribute one group, but the source
accepts a frame only when strictly more bytes remain than its size and
returns no groups. -/
theorem nestedAttributeArray_exact_frame_dropped :
    nestedAttributeArray [8, 0, 0, 0, 4, 0, 0, 0] = .ok [] ∧
    ¬ (([8, 0, 0, 0, 4, 0, 0, 0] : List Nat).length < 8) ∧
    bytesToNat 2 [8, 0, 0, 0, 4, 0, 0, 0] ≤
      ([8, 0, 0, 0, 4, 0, 0, 0] : List Nat).length := by
  refine ⟨?_, by decide, by decide⟩
  have h1 : (4 : Nat) < ([8, 0, 0, 0, 4, 0, 0, 0] : List Nat).length := by
    decide
  have h2 : ¬ bytesToNat 2 [8, 0, 0, 0, 4, 0, 0, 0] <
      ([8, 0, 0, 0, 4, 0, 0, 0] : List Nat).length := by decide
  exact nestedLoop_stop_fit [] h1 h2

theorem nestedLoop_frames (fs : List (Nat × List Nat)) :
    ∀ acc, (∀ f ∈ fs, f.2.length + 4 ≤ 65535) →
    (∀ f ∈ fs, ∃ r, unpackAll f.2 = .ok r) →
    nestedLoop (encodeFrames fs) acc =
      .ok (acc ++ fs.dropLast.map (fun f => attrListOf f.2)) := by
  induction fs with
  | nil =>
      intro acc hsz hok
      simp only [encodeFrames, List.dropLast_nil, List.map_nil,
        List.append_nil]
      exact nestedLoop_stop_small acc (by simp)
  | cons f rest ih =>
      intro acc hsz hok
      have hflen := encodeFrame_length f
      have hread : bytesToNat 2 (encodeFrames (f :: rest)) = f.2.length + 4 := by
        have hassoc : encodeFrames (f :: rest) =
            natToBytes 2 (f.2.length + 4) ++
              (natToBytes 2 f.1 ++ (f.2 ++ encodeFrames rest)) := by
          simp [encodeFrames, encodeFrame]
        rw [hassoc, bytesToNat_append, Nat.mod_eq_of_lt
          (by have := hsz f (by simp); norm_num; omega)]
      cases rest with
      | nil =>
          simp only [List.dropLast_single, List.map_nil, List.append_nil]
          by_cases hp : 4 < (encodeFrames [f]).length
          · apply nestedLoop_stop_fit acc hp
            rw [hread]
            simp only [encodeFrames, List.append_nil, List.length_append] at hp ⊢
            omega
          · exact nestedLoop_stop_small acc hp
      | cons g rest2 =>
          have hrlen := encodeFrames_cons_length g rest2
          have htot : (encodeFrames (f :: g :: rest2)).length =
              (f.2.length + 4) + (encodeFrames (g :: rest2)).length := by
            simp only [encodeFrames, List.length_append]
            omega
          have h1 : 4 < (encodeFrames (f :: g :: rest2)).length := by omega
          have h2 : bytesToNat 2 (encodeFrames (f :: g :: rest2)) <
              (encodeFrames (f :: g :: rest2)).length := by
            rw [hread]; omega
          have h3 : ¬ bytesToNat 2 (encodeFrames (f :: g :: rest2)) < 4 := by
            rw [hread]; omega
          obtain ⟨r, hr⟩ := hok f (by simp)
          have hpay : ((encodeFrames (f :: g :: rest2)).drop 4).take
              (bytesToNat 2 (encodeFrames (f :: g :: rest2)) - 4) = f.2 := by
            rw [hread]
            have hassoc : encodeFrames (f :: g :: rest2) =
                (natToBytes 2 (f.2.length + 4) ++ natToBytes 2 f.1) ++
                  (f.2 ++ encodeFrames (g :: rest2)) := by
              simp [encodeFrames, encodeFrame]
            rw [hassoc, List.drop_left' (by simp [natToBytes_length]),
              Nat.add_sub_cancel, List.take_left' rfl]
          have hok2 : unpackAll
              (((encodeFrames (f :: g :: rest2)).drop 4).take
                (bytesToNat 2 (encodeFrames (f :: g :: rest2)) - 4)) =
              .ok r := by rw [hpay]; exact hr
          rw [nestedLoop_step acc h1 h2 h3 hok2]
          have hdrop : (encodeFrames (f :: g :: rest2)).drop
              (bytesToNat 2 (encodeFrames (f :: g :: rest2))) =
              encodeFrames (g :: rest2) := by
            rw [hread]
            have hassoc : encodeFrames (f :: g :: rest2) =
                encodeFrame f ++ encodeFrames (g :: rest2) := rfl
            rw [hassoc, List.drop_left' hflen]
          rw [hdrop, ih (acc ++ [r.2]) (fun x hx => hsz x (by simp [hx]))
            (fun x hx => hok x (by simp [hx]))]
          have hfirst : attrListOf f.2 = r.2 := by
            simp [attrListOf, hr]
          simp [hfirst]

/-- C4 (amended): the nested-array decoder stops when 4 or fewer bytes
remain, or when the declared size is at least the remaining byte count (a
frame is accepted only when strictly more bytes remain than its declared
size).  Consequently, on a buffer that is exactly a concatenation of
well-formed frames the decoder yields one group per frame — the flat
attribute list decoded from the frame's `size - 4` payload bytes, advancing
by exactly `size` bytes — for every frame except the last, which is always
dropped. -/
theorem nestedAttributeArray_behaviour :
    (∀ d : List Nat, d.length ≤ 4 → nestedAttributeArray d = .ok []) ∧
    (∀ d : List Nat, 4 < d.length → d.length ≤ bytesToNat 2 d →
      nestedAttributeArray d = .ok []) ∧
    (∀ fs : List (Nat × List Nat), (∀ f ∈ fs, f.2.length + 4 ≤ 65535) →
      (∀ f ∈ fs, ∃ r, unpackAll f.2 = .ok r) →
      nestedAttributeArray (encodeFrames fs) =
        .ok (fs.dropLast.map (fun f => attrListOf f.2))) := by
  refine ⟨?_, ?_, ?_⟩
  · intro d hd
    exact nestedLoop_stop_small [] (by omega)
  · intro d hd hsz
    exact nestedLoop_stop_fit [] hd (by omega)
  · intro fs hsz hok
    have h := nestedLoop_frames fs [] hsz hok
    simpa using h

/-- Witness for the amended C4: two frames, the first with payload
`[4,0,0,0]` (one empty attribute), the second empty; only the first frame
is decoded.  Also the stop case on a 3-byte buffer. -/
theorem nestedAttributeArray_behaviour_witness :
    nestedAttributeArray [0, 0, 0] = .ok [] ∧
    nestedAttributeArray [8, 0, 0, 0, 4, 0, 0, 0, 4, 0, 1, 0] =
      .ok [[⟨0, []⟩]] := by
  constructor
  · exact nestedAttributeArray_behaviour.1 [0, 0, 0] (by decide)
  · have hattr : attrListOf [4, 0, 0, 0] = [⟨0, []⟩] := by
      simp [attrListOf, unpackAll, unpackAllFrom, attrUnpackWithSize,
        bytesToNat, netlinkPadding, netlinkAlign]
    have h := nestedAttributeArray_behaviour.2.2 [(0, [4, 0, 0, 0]), (1, [])]
      (by decide)
      (by
        intro f hf
        simp only [List.mem_cons, List.not_mem_nil, or_false] at hf
        rcases hf with hf | hf
        · subst hf
          exact ⟨(4, [⟨0, []⟩]), by
            simp [unpackAll, unpackAllFrom, attrUnpackWithSize, bytesToNat,
              netlinkPadding, netlinkAlign]⟩
        · subst hf
          exact ⟨(0, []), by
            simp [unpackAll, unpackAllFrom, attrUnpackWithSize]⟩)
    have henc : encodeFrames [(0, [4, 0, 0, 0]), (1, [])] =
        [8, 0, 0, 0, 4, 0, 0, 0, 4, 0, 1, 0] := by
      simp [encodeFrames, encodeFrame, natToBytes]
    rw [henc] at h
    rw [h]
    simp [hattr]

/-- Default `NativeUnpack::unpack_with_size` (`core/pack.rs` lines 26-32) for
a fixed-width unsigned integer of `s` bytes: `NotEnoughData` when fewer than
`s` bytes remain, otherwise the native-endian read of the first `s` bytes. -/
def unpackPrim (s : Nat) (buffer : List Nat) : Except NlError (Nat × Nat) :=
  if buffer.length < s then .error .NotEnoughData
  else .ok (s, bytesToNat s buffer)

/-- Default `NativePack::pack` (`core/pack.rs` lines 125-132) for a
fixed-width unsigned integer of `s` bytes: `NotEnoughData` when the
destination is smaller than `s` (nothing is written), otherwise the buffer
with its first `s` bytes replaced by the native-endian encoding. -/
def packPrim (s v : Nat) (buffer : List Nat) : Except NlError (List Nat) :=
  if buffer.length < s then .error .NotEnoughData
  else .ok (natToBytes s v ++ buffer.drop s)

/-- Reading of `s` bytes as a signed value: the source reinterprets the same
native-endian byte pattern as `i8..i64`, i.e. two's complement. -/
def toSigned (s n : Nat) : Int :=
  if n < 2 ^ (8 * s - 1) then (n : Int) else (n : Int) - 2 ^ (8 * s)

/-- Signed unpack (`i8..i64` impls of `NativeUnpack`). -/
def unpackPrimInt (s : Nat) (buffer : List Nat) : Except NlError (Nat × Int) :=
  if buffer.length < s then .error .NotEnoughData
  else .ok (s, toSigned s (bytesToNat s buffer))

/-- Two's-complement byte pattern of a signed value (`i8..i64` writes). -/
def intToBytes (s : Nat) (v : Int) : List Nat :=
  natToBytes s (v % 2 ^ (8 * s)).toNat

/-- Signed pack (`i8..i64` impls of `NativePack`). -/
def packPrimInt (s : Nat) (v : Int) (buffer : List Nat) :
    Except NlError (List Nat) :=
  if buffer.length < s then .error .NotEnoughData
  else .ok (intToBytes s v ++ buffer.drop s)

/-- `HardwareAddress` unpack: 6 opaque bytes copied out of the buffer. -/
def hwUnpack (buffer : List Nat) : Except NlError (Nat × List Nat) :=
  if buffer.length < 6 then .error .NotEnoughData
  else .ok (6, buffer.take 6)

/-- `HardwareAddress` pack: 6 opaque bytes copied into the buffer. -/
def hwPack (v : List Nat) (buffer : List Nat) : Except NlError (List Nat) :=
  if buffer.length < 6 then .error .NotEnoughData
  else .ok (v.take 6 ++ buffer.drop 6)

theorem pow256 (s : Nat) : (256 : Nat) ^ s = 2 ^ (8 * s) := by
  rw [show (256 : Nat) = 2 ^ 8 by norm_num, ← pow_mul]

theorem two_pow_split (s : Nat) (hs : 1 ≤ s) :
    (2 : Int) ^ (8 * s) = 2 * 2 ^ (8 * s - 1) := by
  have h8 : (8 * s - 1) + 1 = 8 * s := by omega
  calc (2 : Int) ^ (8 * s) = 2 ^ ((8 * s - 1) + 1) := by rw [h8]
    _ = 2 ^ (8 * s - 1) * 2 := pow_succ 2 (8 * s - 1)
    _ = 2 * 2 ^ (8 * s - 1) := by ring

theorem toSigned_emod (s : Nat) (v : Int) (hs : 1 ≤ s)
    (hlo : -(2 ^ (8 * s - 1)) ≤ v) (hhi : v < 2 ^ (8 * s - 1)) :
    toSigned s (v % 2 ^ (8 * s)).toNat = v := by
  have hKM := two_pow_split s hs
  have hKpos : (0 : Int) < 2 ^ (8 * s - 1) := by positivity
  rcases le_or_lt 0 v with hpos | hneg
  · have hmod : v % 2 ^ (8 * s) = v := Int.emod_eq_of_lt hpos (by omega)
    rw [hmod]
    unfold toSigned
    rw [if_pos]
    · exact Int.toNat_of_nonneg hpos
    · have hcast : ((v.toNat : Int)) = v := Int.toNat_of_nonneg hpos
      have hc2 : ((2 ^ (8 * s - 1) : Nat) : Int) = 2 ^ (8 * s - 1) := by
        push_cast; ring
      omega
  · have h1 : (v + 2 ^ (8 * s)) % 2 ^ (8 * s) = v % 2 ^ (8 * s) := by
      have := Int.add_mul_emod_self_left (a := v) (b := 2 ^ (8 * s)) (c := 1)
      simpa using this
    have h2 : (v + 2 ^ (8 * s)) % 2 ^ (8 * s) = v + 2 ^ (8 * s) :=
      Int.emod_eq_of_lt (by omega) (by omega)
    have hmod : v % 2 ^ (8 * s) = v + 2 ^ (8 * s) := by omega
    rw [hmod]
    unfold toSigned
    rw [if_neg]
    · have hcast : (((v + 2 ^ (8 * s)).toNat : Int)) = v + 2 ^ (8 * s) :=
        Int.toNat_of_nonneg (by omega)
      omega
    · have hcast : (((v + 2 ^ (8 * s)).toNat : Int)) = v + 2 ^ (8 * s) :=
        Int.toNat_of_nonneg (by omega)
      have hc2 : ((2 ^ (8 * s - 1) : Nat) : Int) = 2 ^ (8 * s - 1) := by
        push_cast; ring
      omega

/-- C9: for every fixed-width unsigned integer width, every representable
unsigned value round-trips through pack then unpack; for every width at
least one byte, every representable signed value (two's complement range,
including the sign-bit boundary) round-trips; and every 6-byte hardware
address round-trips — whenever the destination buffer is large enough. -/
theorem prim_pack_unpack_roundtrip :
    (∀ (s v : Nat) (buffer : List Nat), v < 2 ^ (8 * s) →
      s ≤ buffer.length →
      packPrim s v buffer = .ok (natToBytes s v ++ buffer.drop s) ∧
      unpackPrim s (natToBytes s v ++ buffer.drop s) = .ok (s, v)) ∧
    (∀ (s : Nat) (v : Int) (buffer : List Nat), 1 ≤ s →
      -(2 ^ (8 * s - 1)) ≤ v → v < 2 ^ (8 * s - 1) → s ≤ buffer.length →
      packPrimInt s v buffer = .ok (intToBytes s v ++ buffer.drop s) ∧
      unpackPrimInt s (intToBytes s v ++ buffer.drop s) = .ok (s, v)) ∧
    (∀ (v buffer : List Nat), v.length = 6 → 6 ≤ buffer.length →
      hwPack v buffer = .ok (v ++ buffer.drop 6) ∧
      hwUnpack (v ++ buffer.drop 6) = .ok (6, v)) := by
  refine ⟨?_, ?_, ?_⟩
  · intro s v buffer hv hbuf
    have hlen : (natToBytes s v ++ buffer.drop s).length = buffer.length := by
      simp [natToBytes_length]
      omega
    refine ⟨by unfold packPrim; rw [if_neg (by omega)], ?_⟩
    unfold unpackPrim
    rw [if_neg (by omega), bytesToNat_append, pow256,
      Nat.mod_eq_of_lt hv]
  · intro s v buffer hs hlo hhi hbuf
    have hlen : (intToBytes s v ++ buffer.drop s).length = buffer.length := by
      simp [intToBytes, natToBytes_length]
      omega
    refine ⟨by unfold packPrimInt; rw [if_neg (by omega)], ?_⟩
    unfold unpackPrimInt
    rw [if_neg (by omega)]
    unfold intToBytes
    rw [bytesToNat_append, pow256, Nat.mod_eq_of_lt]
    · rw [toSigned_emod s v hs hlo hhi]
    · have hKM := two_pow_split s hs
      have hmodlt : v % 2 ^ (8 * s) < 2 ^ (8 * s) :=
        Int.emod_lt_of_pos v (by positivity)
      have hmodnn : 0 ≤ v % 2 ^ (8 * s) :=
        Int.emod_nonneg v (by positivity)
      have hc : ((2 ^ (8 * s) : Nat) : Int) = 2 ^ (8 * s) := by
        push_cast; ring
      omega
  · intro v buffer hv hbuf
    have htake : v.take 6 = v := by
      rw [List.take_of_length_le (by omega)]
    constructor
    · unfold hwPack
      rw [if_neg (by omega), htake]
    · unfold hwUnpack
      rw [if_neg (by simp [natToBytes_length]; omega),
        List.take_left' hv]

/-- Witness for C9 at boundary bit patterns: all-ones u64, the most negative
i64 (sign bit set), and a concrete hardware address. -/
theorem prim_pack_unpack_roundtrip_witness :
    (packPrim 8 18446744073709551615 (List.replicate 8 0) =
        .ok [255, 255, 255, 255, 255, 255, 255, 255] ∧
      unpackPrim 8 [255, 255, 255, 255, 255, 255, 255, 255] =
        .ok (8, 18446744073709551615)) ∧
    (packPrimInt 8 (-9223372036854775808) (List.replicate 8 0) =
        .ok [0, 0, 0, 0, 0, 0, 0, 128] ∧
      unpackPrimInt 8 [0, 0, 0, 0, 0, 0, 0, 128] =
        .ok (8, -9223372036854775808)) ∧
    (hwPack [170, 187, 204, 221, 238, 255] (List.replicate 6 0) =
        .ok [170, 187, 204, 221, 238, 255] ∧
      hwUnpack [170, 187, 204, 221, 238, 255] =
        .ok (6, [170, 187, 204, 221, 238, 255])) :=
  ⟨prim_pack_unpack_roundtrip.1 8 18446744073709551615 (List.replicate 8 0)
      (by norm_num) (by simp),
    prim_pack_unpack_roundtrip.2.1 8 (-9223372036854775808)
      (List.replicate 8 0) (by norm_num) (by norm_num) (by norm_num)
      (by simp),
    prim_pack_unpack_roundtrip.2.2 [170, 187, 204, 221, 238, 255]
      (List.replicate 6 0) (by decide) (by simp)⟩

/-- Netlink message header (`core/message.rs` lines 58-64). -/
structure Header where
  length : Nat
  identifier : Nat
  flags : Nat
  sequence : Nat
  pid : Nat
deriving DecidableEq, Repr

/-- Well-formed header: every field fits its wire width. -/
def HeaderWF (h : Header) : Prop :=
  h.length < 2 ^ 32 ∧ h.identifier < 2 ^ 16 ∧ h.flags < 2 ^ 16 ∧
    h.sequence < 2 ^ 32 ∧ h.pid < 2 ^ 32

instance (h : Header) : Decidable (HeaderWF h) := by
  unfold HeaderWF; infer_instance

/-- `<Header as NativeUnpack>::unpack_with_size` via the default trait method
(`core/pack.rs` lines 26-32, size 16) and `unpack_unchecked`
(`core/message.rs` lines 124-138): fields at offsets 0, 4, 6, 8, 12. -/
def headerUnpackWithSize (buffer : List Nat) : Except NlError (Nat × Header) :=
  if buffer.length < 16 then .error .NotEnoughData
  else .ok (16,
    ⟨bytesToNat 4 buffer, bytesToNat 2 (buffer.drop 4),
      bytesToNat 2 (buffer.drop 6), bytesToNat 4 (buffer.drop 8),
      bytesToNat 4 (buffer.drop 12)⟩)

/-- `<Header as NativePack>::pack_unchecked` (`core/message.rs` lines
113-120): length, identifier, flags, sequence, pid at offsets 0, 4, 6, 8, 12. -/
def headerPackBytes (h : Header) : List Nat :=
  natToBytes 4 h.length ++ natToBytes 2 h.identifier ++ natToBytes 2 h.flags ++
    natToBytes 4 h.sequence ++ natToBytes 4 h.pid

theorem headerPackBytes_length (h : Header) :
    (headerPackBytes h).length = 16 := by
  simp [headerPackBytes, natToBytes_length]

/-- `Header::data_length` (`core/message.rs` lines 73-75): the usize
subtraction `length - 16`, an arithmetic-underflow program error (panic with
overflow checks enabled) when `length < 16`. -/
def headerDataLength (h : Header) : Except NlError Nat :=
  if h.length < 16 then .error .Panic else .ok (h.length - 16)

/-- `Header::check_pid` (`core/message.rs` lines 89-91). -/
def checkPid (h : Header) (pid : Nat) : Bool :=
  h.pid == 0 || h.pid == pid

/-- Netlink data message (`core/message.rs` lines 140-143). -/
structure DataMessage where
  header : Header
  data : List Nat
deriving DecidableEq, Repr

/-- `DataMessage::unpack` (`core/message.rs` lines 146-157): computes
`size = header.data_length()`, fails `UnexpectedEof` when fewer than
`align4(size)` bytes remain, otherwise copies the first `size` bytes and
consumes `align4(size)`. -/
def dataMessageUnpack (data : List Nat) (h : Header) :
    Except NlError (Nat × DataMessage) :=
  match headerDataLength h with
  | .error e => .error e
  | .ok size =>
      if data.length < netlinkAlign size then .error .IoUnexpectedEof
      else .ok (netlinkAlign size, ⟨h, data.take size⟩)

/-- Netlink error message (`core/message.rs` lines 168-172). -/
structure ErrorMessage where
  header : Header
  code : Int
  originalHeader : Header
deriving DecidableEq, Repr

/-- `ErrorMessage::unpack` (`core/message.rs` lines 175-186): fails
`UnexpectedEof` below `4 + 16` bytes, otherwise reads the i32 code and the
nested copy of the original request header. -/
def errorMessageUnpack (data : List Nat) (h : Header) :
    Except NlError (Nat × ErrorMessage) :=
  if data.length < 20 then .error .IoUnexpectedEof
  else
    match headerUnpackWithSize (data.drop 4) with
    | .error e => .error e
    | .ok r => .ok (20, ⟨h, toSigned 4 (bytesToNat 4 data), r.2⟩)

/-- Roundtrip of the header codec: unpacking a packed well-formed header
returns the header, regardless of trailing bytes. -/
theorem headerUnpack_packBytes (h : Header) (rest : List Nat)
    (hwf : HeaderWF h) :
    headerUnpackWithSize (headerPackBytes h ++ rest) = .ok (16, h) := by
  obtain ⟨h1, h2, h3, h4, h5⟩ := hwf
  have hassoc : headerPackBytes h ++ rest =
      natToBytes 4 h.length ++ (natToBytes 2 h.identifier ++
        (natToBytes 2 h.flags ++ (natToBytes 4 h.sequence ++
          (natToBytes 4 h.pid ++ rest)))) := by
    simp [headerPackBytes]
  have hlen : (headerPackBytes h ++ rest).length = 16 + rest.length := by
    simp [headerPackBytes_length]
  have d4 : (headerPackBytes h ++ rest).drop 4 =
      natToBytes 2 h.identifier ++ (natToBytes 2 h.flags ++
        (natToBytes 4 h.sequence ++ (natToBytes 4 h.pid ++ rest))) := by
    rw [hassoc, List.drop_left' (natToBytes_length 4 _)]
  have d6 : (headerPackBytes h ++ rest).drop 6 =
      natToBytes 2 h.flags ++ (natToBytes 4 h.sequence ++
        (natToBytes 4 h.pid ++ rest)) := by
    have : (headerPackBytes h ++ rest).drop 6 =
        ((headerPackBytes h ++ rest).drop 4).drop 2 := by
      rw [List.drop_drop]
    rw [this, d4, List.drop_left' (natToBytes_length 2 _)]
  have d8 : (headerPackBytes h ++ rest).drop 8 =
      natToBytes 4 h.sequence ++ (natToBytes 4 h.pid ++ rest) := by
    have : (headerPackBytes h ++ rest).drop 8 =
        ((headerPackBytes h ++ rest).drop 6).drop 2 := by
      rw [List.drop_drop]
    rw [this, d6, List.drop_left' (natToBytes_length 2 _)]
  have d12 : (headerPackBytes h ++ rest).drop 12 =
      natToBytes 4 h.pid ++ rest := by
    have : (headerPackBytes h ++ rest).drop 12 =
        ((headerPackBytes h ++ rest).drop 8).drop 4 := by
      rw [List.drop_drop]
    rw [this, d8, List.drop_left' (natToBytes_length 4 _)]
  unfold headerUnpackWithSize
  rw [if_neg (by omega)]
  rw [d4, d6, d8, d12, hassoc]
  rw [bytesToNat_append, bytesToNat_append, bytesToNat_append,
    bytesToNat_append, bytesToNat_append]
  rw [Nat.mod_eq_of_lt (by norm_num; omega),
    Nat.mod_eq_of_lt (by norm_num; omega),
    Nat.mod_eq_of_lt (by norm_num; omega),
    Nat.mod_eq_of_lt (by norm_num; omega),
    Nat.mod_eq_of_lt (by norm_num; omega)]

/-- C10: `DataMessage::unpack` computes the payload size as
`header.length - 16` in unsigned arithmetic, so it is total only when
`header.length >= 16` — below 16 the subtraction is an underflow panic — even
though header parsing accepts any 16-byte pattern.  Under the precondition,
with a buffer of at least `align4(length - 16)` bytes, it succeeds with a
payload of exactly `length - 16` bytes copied out of the buffer and reports
`align4(length - 16)` bytes consumed. -/
theorem dataMessageUnpack_spec :
    (∀ h : Header, h.length < 16 → headerDataLength h = .error .Panic) ∧
    (∀ h : Header, 16 ≤ h.length → headerDataLength h = .ok (h.length - 16)) ∧
    (∀ b : List Nat, 16 ≤ b.length →
      ∃ hh, headerUnpackWithSize b = .ok (16, hh)) ∧
    (∀ (h : Header) (data : List Nat), 16 ≤ h.length →
      netlinkAlign (h.length - 16) ≤ data.length →
      dataMessageUnpack data h =
        .ok (netlinkAlign (h.length - 16), ⟨h, data.take (h.length - 16)⟩) ∧
      (data.take (h.length - 16)).length = h.length - 16) := by
  refine ⟨?_, ?_, ?_, ?_⟩
  · intro h hlt
    unfold headerDataLength
    rw [if_pos hlt]
  · intro h hge
    unfold headerDataLength
    rw [if_neg (by omega)]
  · intro b hb
    exact ⟨⟨bytesToNat 4 b, bytesToNat 2 (b.drop 4), bytesToNat 2 (b.drop 6),
        bytesToNat 4 (b.drop 8), bytesToNat 4 (b.drop 12)⟩,
      by unfold headerUnpackWithSize; rw [if_neg (by omega)]⟩
  · intro h data hge hbuf
    have hsz : headerDataLength h = .ok (h.length - 16) := by
      unfold headerDataLength
      rw [if_neg (by omega)]
    constructor
    · unfold dataMessageUnpack
      rw [hsz]
      dsimp only
      rw [if_neg (by omega)]
    · have := netlinkAlign_le (h.length - 16)
      rw [List.length_take]
      omega

/-- Witness for C10 at the source's `unpack_data_message` test: a header of
length 18 over a 4-byte (padded) buffer, and the panic case below 16. -/
theorem dataMessageUnpack_spec_witness :
    headerDataLength ⟨8, 0, 0, 0, 0⟩ = .error .Panic ∧
    dataMessageUnpack [170, 85, 0, 0] ⟨18, 4096, 16, 1, 4⟩ =
      .ok (4, ⟨⟨18, 4096, 16, 1, 4⟩, [170, 85]⟩) :=
  ⟨dataMessageUnpack_spec.1 ⟨8, 0, 0, 0, 0⟩ (by decide),
    (dataMessageUnpack_spec.2.2.2 ⟨18, 4096, 16, 1, 4⟩ [170, 85, 0, 0]
      (by decide) (by decide)).1⟩

/-- `MessageMode` (`core/message.rs` lines 21-25): expected completion of an
outstanding request. -/
inductive MessageMode where
  | None
  | Acknowledge
  | Dump
deriving DecidableEq, BEq, Repr

/-- `Message` (`core/message.rs` lines 196-200): a decoded record. -/
inductive Msg where
  | Data (m : DataMessage)
  | Acknowledge
  | Done
deriving DecidableEq, Repr

/-- Receive-side socket state: the bound local address pid and the pending
request map `sent` from `Socket` (`core/socket.rs` lines 46-55), the mutable
state `unpack_data` reads and writes.  The `HashMap<u32, MessageMode>` is an
association list with at most one entry per key. -/
structure RecvState where
  localPid : Nat
  sent : List (Nat × MessageMode)
deriving DecidableEq, Repr

/-- `HashMap::contains_key`. -/
def containsSeq (sent : List (Nat × MessageMode)) (seq : Nat) : Bool :=
  sent.any (fun p => p.1 == seq)

/-- `HashMap::remove`: drop the entry with the given key. -/
def removeSeq (sent : List (Nat × MessageMode)) (seq : Nat) :
    List (Nat × MessageMode) :=
  sent.filter (fun p => p.1 != seq)

/-- `HashMap::get`: look the key up. -/
def findSeq (sent : List (Nat × MessageMode)) (seq : Nat) :
    Option MessageMode :=
  (sent.find? (fun p => p.1 == seq)).map (fun p => p.2)

/-- `HashMap::insert`: replace any previous entry with the key. -/
def insertSeq (sent : List (Nat × MessageMode)) (seq : Nat)
    (m : MessageMode) : List (Nat × MessageMode) :=
  (seq, m) :: removeSeq sent seq

/-- `Socket::check_sequence` (`core/socket.rs` lines 206-211): sequence 0
(unsolicited) always passes, otherwise the sequence must be pending. -/
def checkSequence (st : RecvState) (sequence : Nat) : Bool :=
  if sequence == 0 then true
  else containsSeq st.sent sequence

/-- `Socket::expect_more` (`core/socket.rs` lines 213-222): sequence 0 never
expects more; otherwise more data is expected when the pending mode is not
`None`.  The source's `assert!(self.sent.contains_key(sequence))` cannot fire
where `expect_more` is called: `check_sequence` has just succeeded in the
same loop iteration and nothing was removed in between, so the lookup is the
same and the assert is omitted here. -/
def expectMore (st : RecvState) (sequence : Nat) : Bool :=
  if sequence == 0 then false
  else
    match findSeq st.sent sequence with
    | some f => f != MessageMode.None
    | none => false

/-- `MessageFlags::from_bits(bits).unwrap_or(empty).contains(MULTIPART)`
(`core/socket.rs` line 255): `from_bits` yields `None` — collapsed to the
empty bitset — whenever a bit outside REQUEST|MULTIPART|ACKNOWLEDGE|DUMP
(0x0307) is set, so an unknown flag bit suppresses MULTIPART detection. -/
def multipartFlag (bits : Nat) : Bool :=
  if bits &&& 0x0307 == bits then bits &&& 2 != 0 else false

/-- Modelled from the spec: `Message::unpack`, referenced by
`Socket::unpack_data` for records that are not NOOP, ERROR or DONE, is not
among the provided sources.  Section 4.3 specifies this parse as
`parseData(buffer, header) -> (align4(dataLen), DataMessage)`, i.e. the
`DataMessage::unpack` of the sources wrapped as a `Message::Data`. -/
def messageUnpack (data : List Nat) (h : Header) :
    Except NlError (Nat × Msg) :=
  match dataMessageUnpack data h with
  | .error e => .error e
  | .ok r => .ok (r.1, .Data r.2)

theorem headerUnpackWithSize_ok_shape {b : List Nat} {n : Nat} {hh : Header}
    (h : headerUnpackWithSize b = .ok (n, hh)) :
    n = 16 ∧ 16 ≤ b.length := by
  unfold headerUnpackWithSize at h
  split at h
  · exact Except.noConfusion h
  · simp only [Except.ok.injEq, Prod.mk.injEq] at h
    omega

/-- `Socket::unpack_data` (`core/socket.rs` lines 224-264).  Scans the
datagram record by record: parse a header, verify pid then sequence (else
`InvalidValue`), then dispatch — NOOP: skip; ERROR: remove the sequence from
pending, parse the error body, fail with the OS error `-code` when the code
is nonzero, else continue with "more" cleared; DONE: remove the sequence,
clear "more", skip the declared data length (whose computation underflows
when the header length is below 16); otherwise parse a data message, with
"more" set from the MULTIPART flag or the pending mode.  The state is
returned alongside the result because the source mutates `self.sent` in
place even on paths that return `Err`. -/
def unpackData (st : RecvState) (more : Bool) (msgs : List Msg)
    (data : List Nat) : RecvState × Except NlError (Bool × List Msg) :=
  if data.isEmpty then (st, .ok (more, msgs))
  else
    match h16 : headerUnpackWithSize data with
    | .error e => (st, .error e)
    | .ok r =>
      if ¬ checkPid r.2 st.localPid then (st, .error .InvalidValue)
      else if ¬ checkSequence st r.2.sequence then (st, .error .InvalidValue)
      else if r.2.identifier = 1 then
        unpackData st more msgs (data.drop r.1)
      else if r.2.identifier = 2 then
        let stE := { st with sent := removeSeq st.sent r.2.sequence }
        match errorMessageUnpack (data.drop r.1) r.2 with
        | .error e => (stE, .error e)
        | .ok r2 =>
          if r2.2.code ≠ 0 then (stE, .error (.OsError (-r2.2.code)))
          else unpackData stE false msgs ((data.drop r.1).drop r2.1)
      else if r.2.identifier = 3 then
        let stD := { st with sent := removeSeq st.sent r.2.sequence }
        match headerDataLength r.2 with
        | .error e => (stD, .error e)
        | .ok size => unpackData stD false msgs
            ((data.drop r.1).drop (netlinkAlign size))
      else
        match messageUnpack (data.drop r.1) r.2 with
        | .error e => (st, .error e)
        | .ok r3 => unpackData st
            (multipartFlag r.2.flags || expectMore st r.2.sequence)
            (msgs ++ [r3.2]) ((data.drop r.1).drop r3.1)
termination_by data.length
decreasing_by
  all_goals
    have hs := headerUnpackWithSize_ok_shape h16
    simp only [List.length_drop]
    omega

theorem unpackData_nil (st : RecvState) (more : Bool) (msgs : List Msg) :
    unpackData st more msgs [] = (st, .ok (more, msgs)) := by
  rw [unpackData]
  simp

theorem intToBytes_length (s : Nat) (v : Int) :
    (intToBytes s v).length = s := by
  simp [intToBytes, natToBytes_length]

theorem headerUnpack_packBytes_nil (h : Header) (hwf : HeaderWF h) :
    headerUnpackWithSize (headerPackBytes h) = .ok (16, h) := by
  have := headerUnpack_packBytes h [] hwf
  rwa [List.append_nil] at this

/-- Processing step for the ERROR branch: first record classified ERROR with
valid pid and sequence removes the sequence from pending, then either fails
with the OS error or continues with "more" cleared. -/
theorem unpackData_error_step (st : RecvState) (more : Bool)
    (msgs : List Msg) (data : List Nat) (hdr : Header) (em : ErrorMessage)
    (n : Nat)
    (hh : headerUnpackWithSize data = .ok (16, hdr))
    (hpid : checkPid hdr st.localPid = true)
    (hseq : checkSequence st hdr.sequence = true)
    (hid : hdr.identifier = 2)
    (hem : errorMessageUnpack (data.drop 16) hdr = .ok (n, em)) :
    unpackData st more msgs data =
      (if em.code ≠ 0 then
        ({ st with sent := removeSeq st.sent hdr.sequence },
          .error (.OsError (-em.code)))
      else unpackData { st with sent := removeSeq st.sent hdr.sequence }
        false msgs ((data.drop 16).drop n)) := by
  have hlen := (headerUnpackWithSize_ok_shape hh).2
  have hne : data ≠ [] := by
    intro hnil; rw [hnil] at hlen; simp at hlen
  rw [unpackData]
  rw [if_neg (by simp [hne])]
  split
  · next e heq => rw [hh] at heq; exact Except.noConfusion heq
  · next r heq =>
      rw [hh] at heq
      cases heq
      dsimp only
      rw [if_neg (by simp [hpid]), if_neg (by simp [hseq]),
        if_neg (by simp [hid]), if_pos hid]
      split
      · next e heq2 => rw [hem] at heq2; exact Except.noConfusion heq2
      · next r2 heq2 =>
          rw [hem] at heq2
          cases heq2
          rfl

/-- Processing step for a record whose pid check fails: the whole call
aborts with `InvalidValue` and the state is untouched. -/
theorem unpackData_pid_fail (st : RecvState) (more : Bool) (msgs : List Msg)
    (data : List Nat) (hdr : Header)
    (hh : headerUnpackWithSize data = .ok (16, hdr))
    (hpid : checkPid hdr st.localPid = false) :
    unpackData st more msgs data = (st, .error .InvalidValue) := by
  have hlen := (headerUnpackWithSize_ok_shape hh).2
  have hne : data ≠ [] := by
    intro hnil; rw [hnil] at hlen; simp at hlen
  rw [unpackData]
  rw [if_neg (by simp [hne])]
  split
  · next e heq => rw [hh] at heq; exact Except.noConfusion heq
  · next r heq =>
      rw [hh] at heq
      cases heq
      dsimp only
      rw [if_pos (by simp [hpid])]

/-- C5: during `receive_messages`, a record classified ERROR (identifier 2)
removes its sequence from the pending map; a nonzero embedded code fails the
whole call immediately with the OS error whose errno is the negated code; a
zero code is a plain acknowledgment and processing continues with "more data
expected" cleared. -/
theorem recv_error_record (st : RecvState) (hdr orig : Header) (code : Int)
    (hwf : HeaderWF hdr) (hwfo : HeaderWF orig)
    (hclo : -2147483648 ≤ code) (hchi : code < 2147483648)
    (hid : hdr.identifier = 2)
    (hpid : checkPid hdr st.localPid = true)
    (hseq : checkSequence st hdr.sequence = true) :
    unpackData st false []
        (headerPackBytes hdr ++ intToBytes 4 code ++ headerPackBytes orig) =
      ({ st with sent := removeSeq st.sent hdr.sequence },
        if code ≠ 0 then .error (.OsError (-code)) else .ok (false, [])) := by
  set data := headerPackBytes hdr ++ intToBytes 4 code ++ headerPackBytes orig
    with hdata
  have hassoc : data = headerPackBytes hdr ++
      (intToBytes 4 code ++ headerPackBytes orig) := by
    rw [hdata, List.append_assoc]
  have hh : headerUnpackWithSize data = .ok (16, hdr) := by
    rw [hassoc]
    exact headerUnpack_packBytes hdr _ hwf
  have hdrop16 : data.drop 16 = intToBytes 4 code ++ headerPackBytes orig := by
    rw [hassoc, List.drop_left' (headerPackBytes_length hdr)]
  have hcode : toSigned 4
      (bytesToNat 4 (intToBytes 4 code ++ headerPackBytes orig)) = code := by
    unfold intToBytes
    rw [bytesToNat_append, pow256 4, Nat.mod_eq_of_lt]
    · exact toSigned_emod 4 code (by norm_num) (by norm_num; omega)
        (by norm_num; omega)
    · have hmodlt : code % 2 ^ (8 * 4) < 2 ^ (8 * 4) :=
        Int.emod_lt_of_pos code (by positivity)
      have hmodnn : 0 ≤ code % 2 ^ (8 * 4) :=
        Int.emod_nonneg code (by positivity)
      have hc : ((2 ^ (8 * 4) : Nat) : Int) = 2 ^ (8 * 4) := by
        push_cast
        try ring
      omega
  have hem : errorMessageUnpack (data.drop 16) hdr =
      .ok (20, ⟨hdr, code, orig⟩) := by
    rw [hdrop16]
    unfold errorMessageUnpack
    rw [if_neg (by simp [intToBytes_length, headerPackBytes_length])]
    rw [List.drop_left' (intToBytes_length 4 code),
      headerUnpack_packBytes_nil orig hwfo]
    dsimp only
    rw [hcode]
  rw [unpackData_error_step st false [] data hdr ⟨hdr, code, orig⟩ 20 hh hpid
    hseq hid hem]
  have hdrop20 : (data.drop 16).drop 20 = [] := by
    rw [hdrop16]
    apply List.drop_eq_nil_of_le
    simp [intToBytes_length, headerPackBytes_length]
  rw [hdrop20, unpackData_nil]
  by_cases hc : code = 0
  · simp [hc]
  · simp [hc]

/-- Witness for C5: a pending Acknowledge request with sequence 7; an ERROR
record with code -1 surfaces as errno 1 (EPERM) and empties the pending map. -/
theorem recv_error_record_witness :
    unpackData ⟨5, [(7, MessageMode.Acknowledge)]⟩ false []
        [36, 0, 0, 0, 2, 0, 0, 0, 7, 0, 0, 0, 0, 0, 0, 0,
         255, 255, 255, 255,
         18, 0, 0, 0, 0, 0, 0, 0, 7, 0, 0, 0, 5, 0, 0, 0] =
      (⟨5, []⟩, .error (.OsError 1)) := by
  have h := recv_error_record ⟨5, [(7, MessageMode.Acknowledge)]⟩
    ⟨36, 2, 0, 7, 0⟩ ⟨18, 0, 0, 7, 5⟩ (-1) (by decide) (by decide)
    (by norm_num) (by norm_num) rfl (by decide) (by decide)
  have hdata : headerPackBytes ⟨36, 2, 0, 7, 0⟩ ++ intToBytes 4 (-1) ++
      headerPackBytes ⟨18, 0, 0, 7, 5⟩ =
      [36, 0, 0, 0, 2, 0, 0, 0, 7, 0, 0, 0, 0, 0, 0, 0,
       255, 255, 255, 255,
       18, 0, 0, 0, 0, 0, 0, 0, 7, 0, 0, 0, 5, 0, 0, 0] := by decide
  rw [hdata] at h
  rw [h]
  decide

/-- C7: a decoded record whose header pid is neither 0 nor the bound local
pid makes `unpack_data` fail with `InvalidValue` (stated for the first
record of any datagram suffix, which covers every record the scan reaches,
since each reached record heads the recursive call on its suffix); records
with pid 0 or the local pid are exactly the ones that pass `check_pid`. -/
theorem recv_pid_validation (st : RecvState) (more : Bool) (msgs : List Msg)
    (data : List Nat) (hdr : Header)
    (hh : headerUnpackWithSize data = .ok (16, hdr)) :
    (¬ (hdr.pid = 0 ∨ hdr.pid = st.localPid) →
      unpackData st more msgs data = (st, .error .InvalidValue)) ∧
    (checkPid hdr st.localPid = true ↔
      (hdr.pid = 0 ∨ hdr.pid = st.localPid)) := by
  constructor
  · intro hbad
    apply unpackData_pid_fail st more msgs data hdr hh
    push_neg at hbad
    simp [checkPid, hbad.1, hbad.2]
  · simp [checkPid]

/-- Witness for C7: a synthetic record with pid 7 on a socket bound to pid 5
is rejected with `InvalidValue`. -/
theorem recv_pid_validation_witness :
    unpackData ⟨5, []⟩ false []
        [16, 0, 0, 0, 0, 0, 0, 0, 0, 0, 0, 0, 7, 0, 0, 0] =
      (⟨5, []⟩, .error .InvalidValue) :=
  (recv_pid_validation ⟨5, []⟩ false []
      [16, 0, 0, 0, 0, 0, 0, 0, 0, 0, 0, 0, 7, 0, 0, 0]
      ⟨16, 0, 0, 0, 7⟩ (by decide)).1 (by decide)

/-- Send-side socket state (`core/socket.rs` lines 46-55): bound local pid,
the next sequence number to allocate and the pending request map. -/
structure SendState where
  localPid : Nat
  sequenceNext : Nat
  sent : List (Nat × MessageMode)
deriving DecidableEq, Repr

/-- Modelled from the spec: the conversion `MessageMode::from(flags)` used at
`core/socket.rs` line 154 is not among the provided sources (`message.rs`
only has the opposite direction `MessageMode -> MessageFlags` with
ACKNOWLEDGE = 0x0004 and DUMP = 0x0300).  Section 4.4 of the spec:
"recording (sequence, mode) where mode ∈ {None, Acknowledge, Dump} derived
from the flags the caller attached to the outgoing message". -/
def modeFromFlags (bits : Nat) : MessageMode :=
  if bits &&& 0x0300 == 0x0300 then .Dump
  else if bits &&& 0x0004 == 0x0004 then .Acknowledge
  else .None

/-- `Socket::new_multicast` state initialisation (`core/socket.rs` lines
83-93): `sequence_next: 1` and an empty pending map, with the kernel-assigned
pid from binding. -/
def socketNew (pid : Nat) : SendState :=
  ⟨pid, 1, []⟩

/-- `Socket::send_message` (`core/socket.rs` lines 139-159).  The payload
pack outcome and the `system::send` syscall outcome are parameters: packing
is behind the `SendMessage` trait and the syscall behind the OS facade.  A
pack failure returns early via `?` before any state change.  After packing,
the header (whose write into the exact 16-byte slice of the page-sized send
buffer cannot fail) carries `sequence_next`; then the pair
`(sequence_next, MessageMode::from(flags))` is inserted into the pending map
and `sequence_next` is incremented — before the syscall, whose result is
returned as is. -/
def sendMessage (st : SendState) (messageType flagsBits : Nat)
    (packResult : Except NlError Nat) (sysSend : Except NlError Nat) :
    SendState × Except NlError Nat :=
  match packResult with
  | .error e => (st, .error e)
  | .ok _payloadSize =>
      let st2 := { st with
        sent := insertSeq st.sent st.sequenceNext (modeFromFlags flagsBits),
        sequenceNext := st.sequenceNext + 1 }
      match sysSend with
      | .error e => (st2, .error e)
      | .ok n => (st2, .ok n)

/-- C6: every `send_message` call whose payload packs inserts
`(sequence_next, mode-from-flags)` into the pending map and increments
`sequence_next`, and these mutations persist whether the subsequent send
syscall succeeds or fails (the syscall outcome is passed through untouched).
A fresh socket starts with `sequence_next = 1` and an empty pending map, so
the first allocated sequence is 1 and — the counter only ever increasing —
sequence 0 is never allocated for a request. -/
theorem sendMessage_bookkeeping :
    (∀ (st : SendState) (mt fb ps : Nat) (sys : Except NlError Nat),
      (sendMessage st mt fb (.ok ps) sys).1.sent =
        insertSeq st.sent st.sequenceNext (modeFromFlags fb) ∧
      (sendMessage st mt fb (.ok ps) sys).1.sequenceNext =
        st.sequenceNext + 1 ∧
      (sendMessage st mt fb (.ok ps) sys).1.localPid = st.localPid ∧
      (sendMessage st mt fb (.ok ps) sys).2 = sys) ∧
    (∀ (st : SendState) (mt fb : Nat) (e : NlError)
        (sys : Except NlError Nat),
      sendMessage st mt fb (.error e) sys = (st, .error e)) ∧
    (∀ pid : Nat,
      (socketNew pid).sequenceNext = 1 ∧ (socketNew pid).sent = []) := by
  refine ⟨?_, ?_, ?_⟩
  · intro st mt fb ps sys
    cases sys with
    | error e => exact ⟨rfl, rfl, rfl, rfl⟩
    | ok n => exact ⟨rfl, rfl, rfl, rfl⟩
  · intro st mt fb e sys
    rfl
  · intro pid
    exact ⟨rfl, rfl⟩

/-- Continuation byte of a UTF-8 sequence: `0x80..=0xBF`. -/
def utf8Cont (b : Nat) : Bool :=
  decide (128 ≤ b ∧ b ≤ 191)

/-- Validity of a byte sequence as UTF-8, as `str::from_utf8` checks it:
1-byte `00..7F`; 2-byte `C2..DF` + cont; 3-byte `E0 A0..BF`, `E1..EC`,
`ED 80..9F` (no surrogates), `EE..EF`, each + cont; 4-byte `F0 90..BF`,
`F1..F3`, `F4 80..8F` (up to U+10FFFF), each + 2 cont. -/
def utf8Valid : List Nat → Bool
  | [] => true
  | b :: rest =>
    if b ≤ 127 then utf8Valid rest
    else if 194 ≤ b ∧ b ≤ 223 then
      match rest with
      | c1 :: r => utf8Cont c1 && utf8Valid r
      | [] => false
    else if b = 224 then
      match rest with
      | c1 :: c2 :: r =>
          decide (160 ≤ c1 ∧ c1 ≤ 191) && utf8Cont c2 && utf8Valid r
      | _ => false
    else if (225 ≤ b ∧ b ≤ 236) ∨ (238 ≤ b ∧ b ≤ 239) then
      match rest with
      | c1 :: c2 :: r => utf8Cont c1 && utf8Cont c2 && utf8Valid r
      | _ => false
    else if b = 237 then
      match rest with
      | c1 :: c2 :: r =>
          decide (128 ≤ c1 ∧ c1 ≤ 159) && utf8Cont c2 && utf8Valid r
      | _ => false
    else if b = 240 then
      match rest with
      | c1 :: c2 :: c3 :: r =>
          decide (144 ≤ c1 ∧ c1 ≤ 191) && utf8Cont c2 && utf8Cont c3 &&
            utf8Valid r
      | _ => false
    else if 241 ≤ b ∧ b ≤ 243 then
      match rest with
      | c1 :: c2 :: c3 :: r =>
          utf8Cont c1 && utf8Cont c2 && utf8Cont c3 && utf8Valid r
      | _ => false
    else if b = 244 then
      match rest with
      | c1 :: c2 :: c3 :: r =>
          decide (128 ≤ c1 ∧ c1 ≤ 143) && utf8Cont c2 && utf8Cont c3 &&
            utf8Valid r
      | _ => false
    else false
termination_by l => l.length
decreasing_by all_goals simp_all <;> omega

/-- `Attribute::as_string` (`core/attribute.rs` lines 148-159): when the data
is a valid C string (nonempty, final NUL, no interior NUL), decode the bytes
before the NUL (`Utf8Error` if invalid UTF-8); otherwise decode the whole
data (`FromUtf8Error` if invalid).  Strings are kept as their byte lists. -/
def asString (data : List Nat) : Except NlError (List Nat) :=
  if data ≠ [] ∧ data.getLast? = some 0 ∧ ¬ (0 ∈ data.dropLast) then
    if utf8Valid data.dropLast then .ok data.dropLast
    else .error .Utf8Error
  else
    if utf8Valid data then .ok data
    else .error .FromUtf8Error

/-- `attribute.as_u32().ok()` (`generic.rs` line 148): `None` when fewer
than 4 data bytes, else the native-endian read. -/
def asU32Opt (b : List Nat) : Option Nat :=
  if b.length < 4 then none else some (bytesToNat 4 b)

/-- `attribute.as_u16()`: `NotEnoughData` when fewer than 2 data bytes. -/
def asU16 (b : List Nat) : Except NlError Nat :=
  if b.length < 2 then .error .NotEnoughData else .ok (bytesToNat 2 b)

/-- `MulticastAttributeId::from(u16)` (`generic.rs` lines 48-52, an
`extended_enum_default`): 0 Unspecified, 1 Name, 2 Id, default Unspecified. -/
inductive MulticastAttributeId where
  | Unspecified
  | Name
  | Id
deriving DecidableEq, Repr

def mcastAttrIdOf (v : Nat) : MulticastAttributeId :=
  if v = 0 then .Unspecified
  else if v = 1 then .Name
  else if v = 2 then .Id
  else .Unspecified

/-- `AttributeId::from(u16)` (`generic.rs` lines 31-40, an
`extended_enum_default`): 0..7 in declaration order, default Unspecified. -/
inductive AttributeIdKind where
  | Unspecified
  | FamilyId
  | FamilyName
  | Version
  | HeaderSize
  | MaximumAttributes
  | Operations
  | MulticastGroups
deriving DecidableEq, Repr

def attrIdOf (v : Nat) : AttributeIdKind :=
  if v = 0 then .Unspecified
  else if v = 1 then .FamilyId
  else if v = 2 then .FamilyName
  else if v = 3 then .Version
  else if v = 4 then .HeaderSize
  else if v = 5 then .MaximumAttributes
  else if v = 6 then .Operations
  else if v = 7 then .MulticastGroups
  else .Unspecified

/-- `MulticastGroup` (`generic.rs` lines 133-136), name kept as bytes. -/
structure MulticastGroup where
  id : Nat
  name : List Nat
deriving DecidableEq, Repr

/-- Attribute scan of `MulticastGroup::from_bytes` (`generic.rs` lines
144-162): Unspecified skipped; Id overwrites the optional group id with
`as_u32().ok()`; Name decodes the string with `?`.  At the end a missing id
is the `InvalidData` error. -/
def mcGroupLoop : List Attribute → List Nat → Option Nat →
    Except NlError MulticastGroup
  | [], name, gid =>
      match gid with
      | some id => .ok ⟨id, name⟩
      | none => .error .IoInvalidData
  | a :: rest, name, gid =>
      match mcastAttrIdOf a.identifier with
      | .Unspecified => mcGroupLoop rest name gid
      | .Id => mcGroupLoop rest name (asU32Opt a.data)
      | .Name =>
          match asString a.data with
          | .error e => .error e
          | .ok s => mcGroupLoop rest s gid

/-- `MulticastGroup::from_bytes` (`generic.rs` lines 139-163). -/
def mcGroupFromBytes (bytes : List Nat) : Except NlError MulticastGroup :=
  match unpackAll bytes with
  | .error e => .error e
  | .ok r => mcGroupLoop r.2 [] none

/-- Netlink generic family (`generic.rs` lines 175-179), name as bytes. -/
structure Family where
  id : Nat
  name : List Nat
  multicastGroups : List MulticastGroup
deriving DecidableEq, Repr

/-- The `for mcs_attr in mcs_attributes { groups.push(from_bytes(..)?) }`
loop of `Family::from_message` (`generic.rs` lines 199-202): the `?` makes
the first failing record abort the whole decode. -/
def pushGroups : List Attribute → Except NlError (List MulticastGroup)
  | [] => .ok []
  | m :: rest =>
      match mcGroupFromBytes m.data with
      | .error e => .error e
      | .ok g =>
          match pushGroups rest with
          | .error e => .error e
          | .ok gs => .ok (g :: gs)

/-- Attribute scan of `Family::from_message` (`generic.rs` lines 187-206):
FamilyName and FamilyId decode with `?`; MulticastGroups re-parses the
attribute bytes as an attribute list and pushes each record through
`MulticastGroup::from_bytes` with `?`; the remaining identifiers are
skipped.  At the end `family_id > 0` is required, else `NotFound`. -/
def familyLoop : List Attribute → List Nat → Nat → List MulticastGroup →
    Except NlError Family
  | [], name, fid, groups =>
      if 0 < fid then .ok ⟨fid, name, groups⟩ else .error .IoNotFound
  | a :: rest, name, fid, groups =>
      match attrIdOf a.identifier with
      | .Unspecified => familyLoop rest name fid groups
      | .FamilyName =>
          match asString a.data with
          | .error e => .error e
          | .ok s => familyLoop rest s fid groups
      | .FamilyId =>
          match asU16 a.data with
          | .error e => .error e
          | .ok v => familyLoop rest name v groups
      | .MulticastGroups =>
          match unpackAll a.data with
          | .error e => .error e
          | .ok r =>
              match pushGroups r.2 with
              | .error e => .error e
              | .ok gs => familyLoop rest name fid (groups ++ gs)
      | _ => familyLoop rest name fid groups

/-- Generic netlink message (`generic.rs` lines 56-62), as consumed by
`Family::from_message`. -/
structure GenMessage where
  family : Nat
  command : Nat
  version : Nat
  flags : Nat
  attributes : List Attribute
deriving DecidableEq, Repr

/-- `Family::from_message` (`generic.rs` lines 182-214). -/
def familyFromMessage (msg : GenMessage) : Except NlError Family :=
  familyLoop msg.attributes [] 0 []

/-- C8 counterexample: a controller message with FamilyId 1 and a
MulticastGroups attribute holding one group record with no attributes at all
(so no Id).  The claim predicts the record is dropped and the family is
returned; the source propagates the `InvalidData` error and the whole decode
fails. -/
theorem family_missing_group_id_fails :
    familyFromMessage ⟨65535, 3, 1, 0, [⟨1, [1, 0]⟩, ⟨7, [4, 0, 1, 0]⟩]⟩ =
      .error .IoInvalidData := by
  have h1 : unpackAll [4, 0, 1, 0] = .ok (4, [⟨1, []⟩]) := by
    simp [unpackAll, unpackAllFrom, attrUnpackWithSize, bytesToNat,
      netlinkPadding, netlinkAlign]
  have h2 : unpackAll ([] : List Nat) = .ok (0, []) := by
    simp [unpackAll, unpackAllFrom, attrUnpackWithSize]
  simp [familyFromMessage, familyLoop, attrIdOf, asU16, bytesToNat, h1,
    pushGroups, mcGroupFromBytes, h2, mcGroupLoop]

theorem mcGroupLoop_no_id (attrs : List Attribute) :
    ∀ name : List Nat,
    (∀ a ∈ attrs, mcastAttrIdOf a.identifier ≠ .Id) →
    (∀ a ∈ attrs, mcastAttrIdOf a.identifier = .Name →
      ∃ s, asString a.data = .ok s) →
    mcGroupLoop attrs name none = .error .IoInvalidData := by
  induction attrs with
  | nil => intro name _ _; rfl
  | cons a rest ih =>
      intro name hno hname
      cases hcase : mcastAttrIdOf a.identifier with
      | Unspecified =>
          simp only [mcGroupLoop]
          rw [hcase]
          exact ih name (fun x hx => hno x (by simp [hx]))
            (fun x hx => hname x (by simp [hx]))
      | Id => exact absurd hcase (hno a (by simp))
      | Name =>
          obtain ⟨s, hs⟩ := hname a (by simp) hcase
          simp only [mcGroupLoop]
          rw [hcase, hs]
          exact ih s (fun x hx => hno x (by simp [hx]))
            (fun x hx => hname x (by simp [hx]))

/-- C8 (amended): a multicast-group record lacking a present Id attribute is
not dropped silently — `MulticastGroup::from_bytes` fails with `InvalidData`,
the `?` in the group loop propagates any record failure, and a failing group
push fails the whole `Family` decode; records whose `from_bytes` succeeds
are all kept, in order. -/
theorem family_group_id_propagation :
    (∀ (bytes : List Nat) (n : Nat) (attrs : List Attribute),
      unpackAll bytes = .ok (n, attrs) →
      (∀ a ∈ attrs, mcastAttrIdOf a.identifier ≠ .Id) →
      (∀ a ∈ attrs, mcastAttrIdOf a.identifier = .Name →
        ∃ s, asString a.data = .ok s) →
      mcGroupFromBytes bytes = .error .IoInvalidData) ∧
    (∀ (m : Attribute) (rest : List Attribute) (e : NlError),
      mcGroupFromBytes m.data = .error e →
      pushGroups (m :: rest) = .error e) ∧
    (∀ (a : Attribute) (rest : List Attribute) (name : List Nat)
        (fid : Nat) (groups : List MulticastGroup) (n : Nat)
        (mcs : List Attribute) (e : NlError),
      attrIdOf a.identifier = .MulticastGroups →
      unpackAll a.data = .ok (n, mcs) →
      pushGroups mcs = .error e →
      familyLoop (a :: rest) name fid groups = .error e) ∧
    (∀ (ms : List Attribute) (gs : List MulticastGroup),
      List.Forall₂ (fun (m : Attribute) (g : MulticastGroup) =>
        mcGroupFromBytes m.data = .ok g) ms gs →
      pushGroups ms = .ok gs) := by
  refine ⟨?_, ?_, ?_, ?_⟩
  · intro bytes n attrs hok hno hname
    unfold mcGroupFromBytes
    rw [hok]
    exact mcGroupLoop_no_id attrs [] hno hname
  · intro m rest e hm
    simp only [pushGroups]
    rw [hm]
  · intro a rest name fid groups n mcs e hkind hok hpush
    simp only [familyLoop]
    rw [hkind, hok]
    dsimp only
    rw [hpush]
  · intro ms gs h
    induction h with
    | nil => rfl
    | cons h1 h2 ih =>
        simp only [pushGroups]
        rw [h1, ih]

/-- Witness for the amended C8: an empty group record fails with
`InvalidData`, and a record carrying Id 5 is decoded and kept. -/
theorem family_group_id_propagation_witness :
    mcGroupFromBytes [] = .error .IoInvalidData ∧
    pushGroups [⟨1, [8, 0, 2, 0, 5, 0, 0, 0]⟩] = .ok [⟨5, []⟩] := by
  constructor
  · exact family_group_id_propagation.1 [] 0 []
      (by simp [unpackAll, unpackAllFrom, attrUnpackWithSize])
      (by simp) (by simp)
  · exact family_group_id_propagation.2.2.2 [⟨1, [8, 0, 2, 0, 5, 0, 0, 0]⟩]
      [⟨5, []⟩]
      (List.Forall₂.cons
        (by simp [mcGroupFromBytes, unpackAll, unpackAllFrom,
          attrUnpackWithSize, bytesToNat, netlinkPadding, netlinkAlign,
          mcGroupLoop, mcastAttrIdOf, asU32Opt])
        List.Forall₂.nil)

end Netlink
